import Mathlib

/-!
Verification of the command-dispatch core (recognizer / cache / history /
dispatcher) of the policy-agent repository.  The TypeScript sources are
embedded shallowly: JavaScript `Map`s become insertion-ordered association
lists, `Date.now()` becomes an explicit `now : Nat` argument threaded through
each operation, `Math.random()` becomes an explicit rational argument, thrown
exceptions become `Except`, and every stateful method returns its updated
state.
-/

namespace Dispatch

/-! ### JavaScript string primitives used by the recognizer -/

/-- Does `pat` occur at the start of `hay` (character-exact)? -/
def listStarts : List Char → List Char → Bool
  | _, [] => true
  | [], _ :: _ => false
  | h :: hs, p :: ps => h = p && listStarts hs ps

/-- Does `pat` occur anywhere inside `hay`?  Model of a JS regex test for a
literal substring. -/
def listHas (hay pat : List Char) : Bool :=
  match hay with
  | [] => listStarts [] pat
  | _ :: t => listStarts hay pat || listHas t pat

def strStarts (hay pat : String) : Bool := listStarts hay.data pat.data

def strHas (hay pat : String) : Bool := listHas hay.data pat.data

/-- Model of a JS alternation regex `/a|b|c/` tested for containment. -/
def hasAny (hay : String) (pats : List String) : Bool :=
  pats.any (fun p => strHas hay p)

/-- Model of JavaScript `toLowerCase` (identity on the CJK characters used by
the pattern table, ASCII folding otherwise). -/
def jsToLower (s : String) : String := ⟨s.data.map Char.toLower⟩

/-- Model of JavaScript `trim`: strip whitespace from both ends. -/
def jsTrim (s : String) : String :=
  ⟨((s.data.dropWhile Char.isWhitespace).reverse.dropWhile
      Char.isWhitespace).reverse⟩

/-! ### Parameter maps and `JSON.stringify`

`intent.params` is a `Record<string, any>` holding only strings and numbers in
this codebase; key order is object-insertion order, which is what
`JSON.stringify` serializes. -/

inductive PValue where
  | str (s : String)
  | num (n : Int)
deriving DecidableEq, Repr

abbrev Params := List (String × PValue)

def PValue.toJson : PValue → String
  | .str s => "\"" ++ s ++ "\""
  | .num n => toString n

/-- Model of `JSON.stringify` on a flat string/number record. -/
def paramsToJson (ps : Params) : String :=
  "\x7b" ++ String.intercalate ","
    (ps.map (fun kv => "\"" ++ kv.1 ++ "\":" ++ kv.2.toJson)) ++ "\x7d"

/-! ### Insertion-ordered association lists: the model of a JS `Map`.

`Map.set` on an existing key updates the value in place (keeping the key's
original position); on a new key it appends.  Iteration order is list order. -/

def alGet {K A : Type} [DecidableEq K] : List (K × A) → K → Option A
  | [], _ => none
  | (k, v) :: t, key => if k = key then some v else alGet t key

def alSet {K A : Type} [DecidableEq K] : List (K × A) → K → A → List (K × A)
  | [], key, v => [(key, v)]
  | (k, w) :: t, key, v =>
    if k = key then (k, v) :: t else (k, w) :: alSet t key v

def alDelete {K A : Type} [DecidableEq K] : List (K × A) → K → List (K × A)
  | [], _ => []
  | (k, w) :: t, key => if k = key then t else (k, w) :: alDelete t key

/-! ### SmartCache (src/src/core/Cache.ts, embedded in the test bundle)

`CacheEntry` and the operations follow the TypeScript class field for field.
The unused `prefix : string` configuration field is dropped (no method reads
it). -/

structure CacheEntry (V : Type) where
  value : V
  expiresAt : Nat
  accessCount : Nat
  lastAccessed : Nat
deriving Repr, DecidableEq

structure CacheOptions where
  maxSize : Nat := 100
  ttlMs : Nat := 300000
deriving DecidableEq, Repr

structure SmartCache (V : Type) where
  entries : List (String × CacheEntry V)
  maxSize : Nat
  ttlMs : Nat
  hitCount : Nat
  missCount : Nat
deriving Repr, DecidableEq

/-- TS `new SmartCache(options)`: empty map, defaulted options, zero counters. -/
def SmartCache.init (V : Type) (opts : CacheOptions) : SmartCache V :=
  { entries := [], maxSize := opts.maxSize, ttlMs := opts.ttlMs,
    hitCount := 0, missCount := 0 }

/-- TS `n < m` where `none` stands for the JS `Infinity` sentinel. -/
def ltInf (n : Nat) : Option Nat → Bool
  | none => true
  | some m => decide (n < m)

/-- One step of the `evictLRU` scan: the accumulator is
`(lruKey, lruAccessCount, lruTime)` with `none` = `null`/`Infinity`. -/
def lruStep {V : Type} (acc : Option String × Option Nat × Option Nat)
    (kv : String × CacheEntry V) : Option String × Option Nat × Option Nat :=
  if ltInf kv.2.accessCount acc.2.1 then
    (some kv.1, some kv.2.accessCount, some kv.2.lastAccessed)
  else if some kv.2.accessCount = acc.2.1 then
    if ltInf kv.2.lastAccessed acc.2.2 then
      (some kv.1, acc.2.1, some kv.2.lastAccessed)
    else acc
  else acc

/-- The key `evictLRU` selects (before the truthiness-guarded delete). -/
def SmartCache.selectLRU {V : Type} (c : SmartCache V) : Option String :=
  (c.entries.foldl lruStep (none, none, none)).1

/-- TS `evictLRU()`.  Note the final JS guard is `if (lruKey)`, which is falsy
both for `null` and for the empty-string key. -/
def SmartCache.evictLRU {V : Type} (c : SmartCache V) : SmartCache V :=
  match c.selectLRU with
  | some k => if k ≠ "" then { c with entries := alDelete c.entries k } else c
  | none => c

/-- TS `set(key, value)` at time `now`. -/
def SmartCache.set {V : Type} (c : SmartCache V) (key : String) (value : V)
    (now : Nat) : SmartCache V :=
  let c1 := if c.entries.length ≥ c.maxSize then c.evictLRU else c
  let e : CacheEntry V :=
    { value := value, expiresAt := now + c1.ttlMs,
      accessCount := 0, lastAccessed := now }
  { c1 with entries := alSet c1.entries key e }

/-- TS `get(key)` at time `now`: expired entries are deleted lazily; live entries
have their access statistics bumped. -/
def SmartCache.get {V : Type} (c : SmartCache V) (key : String) (now : Nat) :
    Option V × SmartCache V :=
  match alGet c.entries key with
  | none => (none, c)
  | some e =>
    if now > e.expiresAt then
      (none, { c with entries := alDelete c.entries key })
    else
      let e' : CacheEntry V :=
        { e with accessCount := e.accessCount + 1, lastAccessed := now }
      (some e.value, { c with entries := alSet c.entries key e' })

/-- TS `has(key)` is `get(key) !== undefined`, side effects included. -/
def SmartCache.has {V : Type} (c : SmartCache V) (key : String) (now : Nat) :
    Bool × SmartCache V :=
  let r := c.get key now
  (r.1.isSome, r.2)

/-- TS `delete(key)`: returns whether the key was present. -/
def SmartCache.del {V : Type} (c : SmartCache V) (key : String) :
    Bool × SmartCache V :=
  ((alGet c.entries key).isSome, { c with entries := alDelete c.entries key })

/-- TS `clear()`. -/
def SmartCache.clear {V : Type} (c : SmartCache V) : SmartCache V :=
  { c with entries := [] }

structure CacheStats where
  size : Nat
  maxSize : Nat
  hitRate : ℚ
  memoryUsage : Nat
deriving DecidableEq, Repr

/-- TS `calculateHitRate()`: ratio of the private hit/miss counters. -/
def SmartCache.calculateHitRate {V : Type} (c : SmartCache V) : ℚ :=
  let total := c.hitCount + c.missCount
  if total > 0 then (c.hitCount : ℚ) / (total : ℚ) else 0

/-- TS `estimateMemoryUsage()`, with `JSON.stringify` of a value abstracted as
`toJson`. -/
def SmartCache.estimateMemoryUsage {V : Type} (c : SmartCache V)
    (toJson : V → String) : Nat :=
  c.entries.foldl
    (fun b kv => b + kv.1.length * 2 + (toJson kv.2.value).length * 2) 0

/-- TS `getStats()`. -/
def SmartCache.getStats {V : Type} (c : SmartCache V) (toJson : V → String) :
    CacheStats :=
  { size := c.entries.length, maxSize := c.maxSize,
    hitRate := c.calculateHitRate,
    memoryUsage := c.estimateMemoryUsage toJson }

/-! ### Intents and the intent recognizer (src/src/core/Agent.ts) -/

inductive IntentType where
  | analyze
  | review
  | pricing
  | exportT
  | help
  | unknown
deriving DecidableEq, Repr

/-- The string the TS union member denotes (`exportT` is the `'export'`
member; `export` is a reserved word in Lean). -/
def IntentType.name : IntentType → String
  | .analyze => "analyze"
  | .review => "review"
  | .pricing => "pricing"
  | .exportT => "export"
  | .help => "help"
  | .unknown => "unknown"

inductive ChannelType where
  | slack
  | discord
  | telegram
  | whatsapp
  | imessage
deriving DecidableEq, Repr

def ChannelType.name : ChannelType → String
  | .slack => "slack"
  | .discord => "discord"
  | .telegram => "telegram"
  | .whatsapp => "whatsapp"
  | .imessage => "imessage"

structure Intent where
  type : IntentType
  params : Params
  confidence : ℚ
deriving DecidableEq, Repr

/-- The per-type regex lists of `IntentRecognizerImpl.patterns`, in table
order, as predicates on the trimmed lowercased message.  Anchored regexes
`/^\/analyze/i` become literal-head tests; alternation regexes such as
`/分析|检测|审查/i` become containment of one of the alternatives (the `/i`
flag is absorbed by matching lowercase literals against the lowercased
input). -/
def analyzePatterns : List (String → Bool) :=
  [fun t => strStarts t "/analyze",
   fun t => hasAny t ["分析", "检测", "审查"],
   fun t => hasAny t ["合规", "政策"],
   fun t => hasAny t ["看看", "检查"]]

def reviewPatterns : List (String → Bool) :=
  [fun t => strStarts t "/review",
   fun t => hasAny t ["评论", "反馈"],
   fun t => hasAny t ["待处理", "待阅"],
   fun t => hasAny t ["问题", "意见"]]

def pricingPatterns : List (String → Bool) :=
  [fun t => strStarts t "/price",
   fun t => hasAny t ["定价", "价格"],
   fun t => hasAny t ["成本", "费用"],
   fun t => hasAny t ["多少钱"]]

def exportPatterns : List (String → Bool) :=
  [fun t => strStarts t "/export",
   fun t => hasAny t ["导出", "下载"],
   fun t => hasAny t ["生成", "创建"],
   fun t => hasAny t ["pdf", "docx", "pptx"]]

def helpPatterns : List (String → Bool) :=
  [fun t => strStarts t "/help",
   fun t => hasAny t ["帮助", "说明"],
   fun t => hasAny t ["怎么用", "如何"]]

/-- The pattern table in object-declaration order (`Object.entries`
enumerates string keys in insertion order). -/
def patternTable : List (IntentType × List (String → Bool)) :=
  [(.analyze, analyzePatterns),
   (.review, reviewPatterns),
   (.pricing, pricingPatterns),
   (.exportT, exportPatterns),
   (.help, helpPatterns),
   (.unknown, [])]

/-! #### Parameter extraction (`extractParams`)

The marker regexes `/公司[:：]?\s*([^\s]+)/i` and `/报告[:：]?\s*([^\s]+)/i`
are executed with JS leftmost-match semantics: at each candidate start the
optional colon is consumed greedily, whitespace is skipped, and a non-empty
run of non-whitespace is captured; if that fails the engine retries without
consuming the colon, and then at later start positions. -/

def isColonChar (c : Char) : Bool := c = ':' || c = '：'

/-- TS `[:：]?\s*([^\s]+)` applied right after a marker occurrence. -/
def captureTail (l : List Char) : Option (List Char) :=
  let cap := (l.dropWhile Char.isWhitespace).takeWhile (fun c => !c.isWhitespace)
  if cap.isEmpty then none else some cap

def captureAfterMarker (rest : List Char) : Option (List Char) :=
  match rest with
  | c :: t =>
    if isColonChar c then
      match captureTail t with
      | some cap => some cap
      | none => captureTail rest
    else captureTail rest
  | [] => none

/-- Leftmost match of `marker[:：]?\s*([^\s]+)`, returning the capture. -/
def findMarkerCapture (marker : List Char) : List Char → Option (List Char)
  | [] => none
  | c :: t =>
    if listStarts (c :: t) marker then
      match captureAfterMarker ((c :: t).drop marker.length) with
      | some cap => some cap
      | none => findMarkerCapture marker t
    else findMarkerCapture marker t

/-- The two quote classes of `/["'"]([^"']+)["']/` both contain exactly `"`
and `'` (the opening class repeats `"`). -/
def isQuoteChar (c : Char) : Bool := c = '"' || c = '\''

/-- Leftmost match of `["'"]([^"']+)["']`, returning the capture. -/
def findQuoteCapture : List Char → Option (List Char)
  | [] => none
  | c :: t =>
    if isQuoteChar c then
      let body := t.takeWhile (fun x => !(isQuoteChar x))
      if !body.isEmpty && !(t.drop body.length).isEmpty then some body
      else findQuoteCapture t
    else findQuoteCapture t

/-- Leftmost maximal digit run, the capture of `/(\d+)/`. -/
def findDigitRun : List Char → Option (List Char)
  | [] => none
  | c :: t =>
    if c.isDigit then some (c :: t.takeWhile Char.isDigit) else findDigitRun t

/-- TS `parseInt` on a digit run. -/
def digitsToNat (l : List Char) : Nat :=
  l.foldl (fun n c => n * 10 + (c.toNat - 48)) 0

/-- TS `IntentRecognizerImpl.extractParams`: runs on the ORIGINAL message (not
the trimmed lowercased copy), assigning record fields in source order. -/
def extractParams (message : String) (type : IntentType) : Params :=
  match type with
  | .analyze =>
    let p1 : Params :=
      match findMarkerCapture "公司".data message.data with
      | some cap => [("company", .str (String.mk cap))]
      | none => []
    let p2 : Params :=
      match findQuoteCapture message.data with
      | some cap => [("content", .str (String.mk cap))]
      | none => []
    p1 ++ p2
  | .review =>
    match findMarkerCapture "报告".data message.data with
    | some cap => [("reportId", .str (String.mk cap))]
    | none => []
  | .pricing =>
    match findDigitRun message.data with
    | some run => [("amount", .num (digitsToNat run))]
    | none => []
  | .exportT =>
    if strHas (jsToLower message) "pdf" then [("format", .str "pdf")]
    else if strHas (jsToLower message) "docx" then [("format", .str "docx")]
    else if strHas (jsToLower message) "pptx" then [("format", .str "pptx")]
    else []
  | _ => []

/-- The `for (const [type, patterns] of Object.entries(this.patterns))` loop
body of `recognize`, with `unknown` skipped by the `continue`. -/
def recognizeLoop (trimmed message : String) (rand : ℚ) :
    List (IntentType × List (String → Bool)) → Option Intent
  | [] => none
  | (ty, pats) :: rest =>
    if ty = .unknown then recognizeLoop trimmed message rand rest
    else if pats.any (fun p => p trimmed) then
      some { type := ty, params := extractParams message ty,
             confidence := 85/100 + rand * (1/10) }
    else recognizeLoop trimmed message rand rest

/-- TS `IntentRecognizerImpl.recognize`.  `rand` is the `Math.random()` draw
feeding the confidence jitter. -/
def recognize (message : String) (rand : ℚ) : Intent :=
  let trimmed := jsToLower (jsTrim message)
  match recognizeLoop trimmed message rand patternTable with
  | some i => i
  | none =>
    { type := .unknown, params := [("raw", .str message)], confidence := 1/2 }

/-! ### Artifacts and processor results -/

structure Artifact where
  id : String
  type : String
  data : Params
deriving DecidableEq, Repr

/-- The (structural) result type a processor resolves with; the default
processors always populate `artifact`. -/
structure ProcessorResult where
  artifact : Option Artifact
deriving DecidableEq, Repr

/-! ### StateManager (src/src/core/State.ts) -/

/-- TS `StateResult` as observed at runtime: `handle` passes a bare
`ProcessorResult` through structural typing, so `success`/`error` can be
`undefined` (`none`). -/
structure StateResult where
  artifact : Option Artifact
  success : Option Bool
  error : Option String
deriving DecidableEq, Repr

structure StateEntry where
  id : String
  intent : Intent
  result : StateResult
  timestamp : Nat
  duration : Nat
deriving DecidableEq, Repr

/-- TS `Omit<StateEntry, 'id'>`, the argument of `record`. -/
structure RecordInput where
  intent : Intent
  result : StateResult
  timestamp : Nat
  duration : Nat
deriving DecidableEq, Repr

structure StateSnapshot where
  entries : List StateEntry
  currentIndex : Int
deriving DecidableEq, Repr

structure StateManager where
  history : List StateEntry
  currentIndex : Int
  maxHistorySize : Nat
deriving DecidableEq, Repr

def StateManager.init : StateManager :=
  { history := [], currentIndex := -1, maxHistorySize := 100 }

def StateManager.size (st : StateManager) : Nat := st.history.length

/-- TS `getCurrent()`. -/
def StateManager.getCurrent (st : StateManager) : Option StateEntry :=
  if st.currentIndex < 0 || st.currentIndex ≥ (st.history.length : Int) then
    none
  else
    st.history.get? st.currentIndex.toNat

/-- TS `record(entry)`; `gid` is the `generateId()` draw (timestamp + random
suffix).  A JS `Date` object is always truthy, so the
`entry.timestamp || new Date()` fallback never fires and is dropped. -/
def StateManager.record (st : StateManager) (entry : RecordInput)
    (gid : String) : StateEntry × StateManager :=
  let newEntry : StateEntry :=
    { id := gid, intent := entry.intent, result := entry.result,
      timestamp := entry.timestamp, duration := entry.duration }
  let h1 :=
    if st.currentIndex < (st.history.length : Int) - 1 then
      st.history.take (st.currentIndex + 1).toNat
    else st.history
  let h2 := h1 ++ [newEntry]
  if h2.length > st.maxHistorySize then
    let h3 := h2.drop (h2.length - st.maxHistorySize)
    (newEntry, { st with history := h3, currentIndex := (h3.length : Int) - 1 })
  else
    (newEntry, { st with history := h2, currentIndex := (h2.length : Int) - 1 })

/-- TS `undo()`. -/
def StateManager.undo (st : StateManager) : Option StateEntry × StateManager :=
  if st.currentIndex < 0 then (none, st)
  else
    let st' := { st with currentIndex := st.currentIndex - 1 }
    (st'.getCurrent, st')

/-- TS `redo()`. -/
def StateManager.redo (st : StateManager) : Option StateEntry × StateManager :=
  if st.currentIndex ≥ (st.history.length : Int) - 1 then (none, st)
  else
    let st' := { st with currentIndex := st.currentIndex + 1 }
    (st'.getCurrent, st')

def StateManager.getSnapshot (st : StateManager) : StateSnapshot :=
  { entries := st.history, currentIndex := st.currentIndex }

def StateManager.restoreSnapshot (st : StateManager) (s : StateSnapshot) :
    StateManager :=
  { st with history := s.entries, currentIndex := s.currentIndex }

def StateManager.clearAll (st : StateManager) : StateManager :=
  { st with history := [], currentIndex := -1 }

/-- TS `searchByIntentType(type)` compares against the intent-type string. -/
def StateManager.searchByIntentType (st : StateManager) (t : String) :
    List StateEntry :=
  st.history.filter (fun e => e.intent.type.name = t)

/-- TS `recent(n)` is `history.slice(-n)`; in JS `slice(-0)` is `slice(0)`,
the whole array. -/
def StateManager.recent (st : StateManager) (n : Nat) : List StateEntry :=
  if n = 0 then st.history else st.history.drop (st.history.length - n)

/-! ### PolicyAgent (src/src/core/Agent.ts)

Promises are collapsed: `execute` and the optional plugin hooks return
`Except String`, the model of resolve/reject; the surrounding `try/catch` of
`handle` is the explicit error propagation below.  Mutations performed before
a rejection (the `has`-side effects on the cache, the history record) persist,
exactly as they do in the source. -/

structure UserInfo where
  id : String
  name : String
  roles : List String
deriving DecidableEq, Repr

structure ArtifactReference where
  id : String
  type : String
  createdAt : Nat
deriving DecidableEq, Repr

structure AgentContext where
  user : UserInfo
  message : String
  channel : ChannelType
  timestamp : Nat
  artifacts : List ArtifactReference
deriving DecidableEq, Repr

structure AgentOptions where
  strictMode : Bool := false
  maxCacheSize : Nat := 100
  enableHistory : Bool := true
  defaultChannel : ChannelType := .slack
deriving DecidableEq, Repr

structure ProcessingResult where
  success : Bool
  artifact : Option Artifact := none
  fromCache : Option Bool := none
  duration : Nat := 0
  error : Option String := none
deriving DecidableEq, Repr

/-- A pluggable processor.  `execute(params, ctx)` additionally observes the
clock (`Date.now()` in artifact ids); the unused optional `validate` member is
dropped. -/
structure Processor where
  type : String
  execute : Params → AgentContext → Nat → Except String ProcessorResult

/-- A plugin's optional hooks.  `onBeforeProcess` may mutate the context, so
its model returns the updated context. -/
structure Plugin where
  onBeforeProcess : Option (AgentContext → Except String AgentContext) := none
  onAfterProcess : Option (AgentContext → ProcessorResult → Except String Unit) := none

/-- The `for (const plugin of this.plugins) await plugin.onBeforeProcess?.(ctx)`
loop. -/
def runBefore : List Plugin → AgentContext → Except String AgentContext
  | [], ctx => .ok ctx
  | p :: rest, ctx =>
    match p.onBeforeProcess with
    | none => runBefore rest ctx
    | some f =>
      match f ctx with
      | .error e => .error e
      | .ok ctx' => runBefore rest ctx'

/-- The `onAfterProcess` loop. -/
def runAfter : List Plugin → AgentContext → ProcessorResult →
    Except String Unit
  | [], _, _ => .ok ()
  | p :: rest, ctx, res =>
    match p.onAfterProcess with
    | none => runAfter rest ctx res
    | some f =>
      match f ctx res with
      | .error e => .error e
      | .ok _ => runAfter rest ctx res

/-- TS `createComplianceProcessor()`. -/
def complianceProcessor : Processor :=
  { type := "compliance",
    execute := fun params _ now =>
      .ok ⟨some ⟨"compliance-" ++ toString now, "compliance-report", params⟩⟩ }

/-- TS `createReviewProcessor()`. -/
def reviewProcessor : Processor :=
  { type := "review",
    execute := fun params _ now =>
      .ok ⟨some ⟨"review-" ++ toString now, "review-comments", params⟩⟩ }

/-- TS `createPricingProcessor()`. -/
def pricingProcessor : Processor :=
  { type := "pricing",
    execute := fun params _ now =>
      .ok ⟨some ⟨"pricing-" ++ toString now, "pricing-calculator", params⟩⟩ }

/-- TS `createExportProcessor()`. -/
def exportProcessor : Processor :=
  { type := "export",
    execute := fun params _ now =>
      .ok ⟨some ⟨"export-" ++ toString now, "file-export", params⟩⟩ }

structure PolicyAgent where
  processors : List (IntentType × Processor)
  cache : SmartCache Artifact
  stateManager : StateManager
  options : AgentOptions
  plugins : List Plugin

/-- TS `new PolicyAgent(options)` with `initDefaultProcessors()`:  the cache is
created with `\x7b maxSize: options.maxCacheSize \x7d`, leaving `ttlMs` at its
300000 ms default. -/
def PolicyAgent.init (opts : AgentOptions) : PolicyAgent :=
  { processors :=
      [(.analyze, complianceProcessor), (.review, reviewProcessor),
       (.pricing, pricingProcessor), (.exportT, exportProcessor)],
    cache := SmartCache.init Artifact { maxSize := opts.maxCacheSize },
    stateManager := StateManager.init,
    options := opts,
    plugins := [] }

/-- The agent built by `createAgent()` with no option overrides. -/
def defaultAgent : PolicyAgent := PolicyAgent.init {}

/-- TS `generateCacheKey(intent, ctx)`. -/
def generateCacheKey (intent : Intent) (ctx : AgentContext) : String :=
  ctx.channel.name ++ ":" ++ intent.type.name ++ ":" ++
    paramsToJson intent.params

/-- What one `handle()` call produces: the returned `ProcessingResult`, the
mutated agent, and an instrumentation bit recording whether a processor's
`execute` was invoked. -/
structure HandleOutput where
  result : ProcessingResult
  agent : PolicyAgent
  invoked : Bool

/-- TS `PolicyAgent.handle(ctx)`.  `now` is the (constant) reading of
`Date.now()` during the call, `rand` the `Math.random()` draw of the
recognizer, `gid` the `generateId()` draw of the state manager; all durations
are therefore `now - now = 0`. -/
def PolicyAgent.handle (a : PolicyAgent) (ctx : AgentContext) (now : Nat)
    (rand : ℚ) (gid : String) : HandleOutput :=
  match runBefore a.plugins ctx with
  | .error e => ⟨{ success := false, error := some e }, a, false⟩
  | .ok ctx1 =>
    let intent := recognize ctx1.message rand
    let cacheKey := generateCacheKey intent ctx1
    let hasR := a.cache.has cacheKey now
    let a1 : PolicyAgent := { a with cache := hasR.2 }
    if hasR.1 then
      let getR := a1.cache.get cacheKey now
      let a2 : PolicyAgent := { a1 with cache := getR.2 }
      ⟨{ success := true, artifact := getR.1, fromCache := some true }, a2,
       false⟩
    else
      match alGet a1.processors intent.type with
      | none =>
        ⟨{ success := false,
           error := some ("未找到处理器: " ++ intent.type.name) }, a1, false⟩
      | some proc =>
        match proc.execute intent.params ctx1 now with
        | .error e => ⟨{ success := false, error := some e }, a1, true⟩
        | .ok result =>
          let a2 : PolicyAgent :=
            if a1.options.enableHistory then
              { a1 with stateManager :=
                  (a1.stateManager.record
                    ⟨intent, ⟨result.artifact, none, none⟩, now, 0⟩ gid).2 }
            else a1
          match runAfter a2.plugins ctx1 result with
          | .error e => ⟨{ success := false, error := some e }, a2, true⟩
          | .ok _ =>
            let a3 : PolicyAgent :=
              match result.artifact with
              | some art => { a2 with cache := a2.cache.set cacheKey art now }
              | none => a2
            ⟨{ success := true, artifact := result.artifact,
               fromCache := some false }, a3, true⟩

/-! ### Basic lemmas about the association-list map model -/

theorem alGet_alSet_self {K A : Type} [DecidableEq K]
    (l : List (K × A)) (k : K) (v : A) : alGet (alSet l k v) k = some v := by
  induction l with
  | nil => simp [alSet, alGet]
  | cons h t ih =>
    by_cases hk : h.1 = k
    · simp [alSet, hk, alGet]
    · simp [alSet, hk, alGet, ih]

theorem alGet_eq_none_of_not_mem {K A : Type} [DecidableEq K]
    (l : List (K × A)) (k : K) (h : k ∉ l.map Prod.fst) :
    alGet l k = none := by
  induction l with
  | nil => rfl
  | cons p t ih =>
    simp only [List.map_cons, List.mem_cons, not_or] at h
    have hne : ¬p.1 = k := fun hp => h.1 hp.symm
    simp [alGet, hne, ih h.2]

theorem alGet_alDelete_self {K A : Type} [DecidableEq K]
    (l : List (K × A)) (k : K)
    (hnd : (l.map Prod.fst).Nodup) : alGet (alDelete l k) k = none := by
  induction l with
  | nil => rfl
  | cons p t ih =>
    simp only [List.map_cons, List.nodup_cons] at hnd
    by_cases hk : p.1 = k
    · subst hk
      simpa [alDelete] using alGet_eq_none_of_not_mem t p.1 hnd.1
    · simp [alDelete, hk, alGet, ih hnd.2]

theorem listStarts_refl (l : List Char) : listStarts l l = true := by
  induction l with
  | nil => rfl
  | cons c t ih => simp [listStarts, ih]

theorem listHas_append_self (xs ys : List Char) :
    listHas (xs ++ ys) ys = true := by
  induction xs with
  | nil =>
    cases ys with
    | nil => rfl
    | cons c t => simp [listHas, listStarts_refl]
  | cons x xt ih => simp [listHas, ih]

/-- Preservation of the configuration and counter fields by every cache
operation. -/
theorem evictLRU_fields {V : Type} (c : SmartCache V) :
    (c.evictLRU).maxSize = c.maxSize ∧ (c.evictLRU).ttlMs = c.ttlMs ∧
    (c.evictLRU).hitCount = c.hitCount ∧
    (c.evictLRU).missCount = c.missCount := by
  unfold SmartCache.evictLRU
  rcases c.selectLRU with _ | k <;> simp <;> split <;> simp

theorem set_fields {V : Type} (c : SmartCache V) (k : String) (v : V)
    (t : Nat) :
    (c.set k v t).maxSize = c.maxSize ∧ (c.set k v t).ttlMs = c.ttlMs ∧
    (c.set k v t).hitCount = c.hitCount ∧
    (c.set k v t).missCount = c.missCount := by
  unfold SmartCache.set
  split <;> simp [evictLRU_fields]

theorem get_fields {V : Type} (c : SmartCache V) (k : String) (t : Nat) :
    ((c.get k t).2).maxSize = c.maxSize ∧ ((c.get k t).2).ttlMs = c.ttlMs ∧
    ((c.get k t).2).hitCount = c.hitCount ∧
    ((c.get k t).2).missCount = c.missCount := by
  unfold SmartCache.get
  rcases alGet c.entries k with _ | e <;> simp <;> split <;> simp

/-- The JS `Map` representation invariant: one occurrence per key. -/
def mapWF {K A : Type} [DecidableEq K] (l : List (K × A)) : Prop :=
  (l.map Prod.fst).Nodup

/-! ### Arbitrary operation sequences on a cache -/

/-- One public cache operation, with its clock reading where the source reads
`Date.now()`. -/
inductive CacheOp (V : Type) where
  | setOp (k : String) (v : V) (t : Nat)
  | getOp (k : String) (t : Nat)
  | hasOp (k : String) (t : Nat)
  | delOp (k : String)
  | clearOp

def applyOp {V : Type} (c : SmartCache V) : CacheOp V → SmartCache V
  | .setOp k v t => c.set k v t
  | .getOp k t => (c.get k t).2
  | .hasOp k t => (c.has k t).2
  | .delOp k => (c.del k).2
  | .clearOp => c.clear

def runOps {V : Type} (c : SmartCache V) (ops : List (CacheOp V)) :
    SmartCache V :=
  ops.foldl applyOp c

theorem applyOp_counters {V : Type} (c : SmartCache V) (op : CacheOp V) :
    (applyOp c op).hitCount = c.hitCount ∧
    (applyOp c op).missCount = c.missCount := by
  cases op with
  | setOp k v t => exact ⟨(set_fields c k v t).2.2.1, (set_fields c k v t).2.2.2⟩
  | getOp k t => exact ⟨(get_fields c k t).2.2.1, (get_fields c k t).2.2.2⟩
  | hasOp k t => exact ⟨(get_fields c k t).2.2.1, (get_fields c k t).2.2.2⟩
  | delOp k => exact ⟨rfl, rfl⟩
  | clearOp => exact ⟨rfl, rfl⟩

theorem runOps_counters {V : Type} (ops : List (CacheOp V))
    (c : SmartCache V) :
    (runOps c ops).hitCount = c.hitCount ∧
    (runOps c ops).missCount = c.missCount := by
  induction ops generalizing c with
  | nil => exact ⟨rfl, rfl⟩
  | cons op rest ih =>
    have h1 := applyOp_counters c op
    have h2 := ih (applyOp c op)
    exact ⟨h2.1.trans h1.1, h2.2.trans h1.2⟩

/-- C10.  For every sequence of cache operations (any mix of `set`, `get`,
`has`, `delete`, `clear`) applied to a freshly constructed cache, the
`hitRate` field of `getStats()` is `0`: the private `hitCount`/`missCount`
counters feeding `calculateHitRate` are never incremented by any operation. -/
theorem c10_hit_rate_always_zero {V : Type} (opts : CacheOptions)
    (ops : List (CacheOp V)) (toJson : V → String) :
    ((runOps (SmartCache.init V opts) ops).getStats toJson).hitRate = 0 := by
  obtain ⟨h1, h2⟩ := runOps_counters ops (SmartCache.init V opts)
  have h1' : (runOps (SmartCache.init V opts) ops).hitCount = 0 := h1
  have h2' : (runOps (SmartCache.init V opts) ops).missCount = 0 := h2
  simp [SmartCache.getStats, SmartCache.calculateHitRate, h1', h2']

/-- C2.  The capacity bound fails on the code: with `maxSize = 1`, inserting
the empty-string key and then a second key leaves TWO live entries, because
`evictLRU`'s final guard `if (lruKey)` is falsy for the selected empty-string
key and thus deletes nothing.  (`set("", v)` then `set("x", w)` is the
failing operation sequence.) -/
theorem c2_capacity_bound_violated :
    ((((SmartCache.init String { maxSize := 1, ttlMs := 1000 }).set "" "v" 0
        ).set "x" "w" 1).entries.length = 2) ∧
    (SmartCache.init String { maxSize := 1, ttlMs := 1000 }).maxSize = 1 := by
  constructor <;> rfl

/-- C5.  TTL expiry is checked lazily on read with a strict comparison:
(1) `set` stamps the entry with `expiresAt = insertTime + ttlMs`,
`accessCount = 0`, `lastAccessed = insertTime`; (2) a `get`/`has` strictly
after `expiresAt` reports absent and deletes the entry (no capacity
hypothesis anywhere); (3) a `get`/`has` at or before `expiresAt` returns the
stored value, increments `accessCount` and refreshes `lastAccessed`. -/
theorem c5_ttl_lazy_expiry {V : Type} (c : SmartCache V) (k : String) (v : V)
    (t0 t : Nat) :
    (alGet (c.set k v t0).entries k =
      some (CacheEntry.mk v (t0 + c.ttlMs) 0 t0)) ∧
    (∀ e : CacheEntry V, alGet c.entries k = some e → t > e.expiresAt →
      (c.get k t).1 = none ∧ (c.has k t).1 = false ∧
      (mapWF c.entries → alGet (c.get k t).2.entries k = none)) ∧
    (∀ e : CacheEntry V, alGet c.entries k = some e → ¬ t > e.expiresAt →
      (c.get k t).1 = some e.value ∧ (c.has k t).1 = true ∧
      alGet (c.get k t).2.entries k =
        some (CacheEntry.mk e.value e.expiresAt (e.accessCount + 1) t)) := by
  refine ⟨?_, ?_, ?_⟩
  · unfold SmartCache.set
    split
    · simp [alGet_alSet_self, (evictLRU_fields c).2.1]
    · simp [alGet_alSet_self]
  · intro e he ht
    have hg : c.get k t =
        (none, { c with entries := alDelete c.entries k }) := by
      unfold SmartCache.get
      simp [he, ht]
    refine ⟨by simp [hg], by simp [SmartCache.has, hg], ?_⟩
    intro hwf
    simp [hg, alGet_alDelete_self c.entries k hwf]
  · intro e he ht
    have hg : c.get k t =
        (some e.value,
         { c with entries := alSet c.entries k (CacheEntry.mk e.value e.expiresAt (e.accessCount + 1) t) }) := by
      unfold SmartCache.get
      simp [he, ht]
    refine ⟨by simp [hg], by simp [SmartCache.has, hg], ?_⟩
    simp [hg, alGet_alSet_self]

/-- The `StateEntry` that `record` builds from its argument and the
`generateId()` draw. -/
def RecordInput.toEntry (e : RecordInput) (gid : String) : StateEntry :=
  { id := gid, intent := e.intent, result := e.result,
    timestamp := e.timestamp, duration := e.duration }

/-- C7.  Recording while the cursor is not at the tail truncates the redo
suffix first: `record(e1); record(e2); undo(); record(e3)` leaves exactly
`[e1, e3]` as the history (so `size() = 2`, `recent(2) = [e1, e3]`, and the
`e2` entry occurs nowhere in the state any operation reads). -/
theorem c7_truncate_on_write (e1 e2 e3 : RecordInput) (g1 g2 g3 : String) :
    ((((((StateManager.init.record e1 g1).2).record e2 g2).2).undo.2).record
        e3 g3).2.size = 2 ∧
    ((((((StateManager.init.record e1 g1).2).record e2 g2).2).undo.2).record
        e3 g3).2.recent 2 = [e1.toEntry g1, e3.toEntry g3] ∧
    ((((((StateManager.init.record e1 g1).2).record e2 g2).2).undo.2).record
        e3 g3).2.history = [e1.toEntry g1, e3.toEntry g3] := by
  simp [StateManager.init, StateManager.record, StateManager.undo,
    StateManager.getCurrent, StateManager.size, StateManager.recent,
    RecordInput.toEntry]

/-! ### Iterated history operations -/

/-- TS `recordIter f g k` performs `record(f 0); …; record(f (k-1))`, the
`generateId()` draw of step `i` being `g i`. -/
def recordIter (f : Nat → RecordInput) (g : Nat → String) :
    Nat → StateManager → StateManager
  | 0, st => st
  | n + 1, st => ((recordIter f g n st).record (f n) (g n)).2

/-- TS `undoIter m` performs `undo()` `m` times. -/
def undoIter : Nat → StateManager → StateManager
  | 0, st => st
  | n + 1, st => ((undoIter n st).undo).2

/-- A concrete family of inputs for closed-form evaluations. -/
def sampleInput (i : Nat) : RecordInput :=
  { intent := { type := .analyze, params := [], confidence := 9/10 },
    result := { artifact := none, success := some true, error := none },
    timestamp := i, duration := 100 }

theorem record_at_tail (st : StateManager) (e : RecordInput) (gid : String)
    (hcur : st.currentIndex = (st.history.length : Int) - 1)
    (hlen : st.history.length + 1 ≤ st.maxHistorySize) :
    (st.record e gid).2 =
      { st with history := st.history ++ [e.toEntry gid], currentIndex := (st.history.length : Int) } := by
  unfold StateManager.record
  have h1 : ¬ (st.currentIndex < (st.history.length : Int) - 1) := by
    omega
  have h2 : ¬ (st.history.length + 1 > st.maxHistorySize) := by omega
  simp only [if_neg h1, List.length_append, List.length_cons,
    List.length_nil, if_neg h2, RecordInput.toEntry]
  simp

theorem recordIter_spec (f : Nat → RecordInput) (g : Nat → String) (k : Nat)
    (hk : k ≤ 100) :
    (recordIter f g k StateManager.init).history =
      (List.range k).map (fun i => (f i).toEntry (g i)) ∧
    (recordIter f g k StateManager.init).currentIndex = (k : Int) - 1 ∧
    (recordIter f g k StateManager.init).maxHistorySize = 100 := by
  induction k with
  | zero => exact ⟨rfl, rfl, rfl⟩
  | succ n ih =>
    obtain ⟨ih1, ih2, ih3⟩ := ih (by omega)
    have hlen : (recordIter f g n StateManager.init).history.length = n := by
      rw [ih1]; simp
    have hstep := record_at_tail (recordIter f g n StateManager.init)
      (f n) (g n) (by rw [ih2, hlen]) (by rw [hlen, ih3]; omega)
    refine ⟨?_, ?_, ?_⟩
    · rw [recordIter, hstep]
      simp only [ih1, List.range_succ, List.map_append, List.map_cons,
        List.map_nil]
    · rw [recordIter, hstep]
      show ((recordIter f g n StateManager.init).history.length : Int) =
        ((n + 1 : Nat) : Int) - 1
      rw [hlen]
      omega
    · rw [recordIter, hstep]
      exact ih3

theorem undo_snd (st : StateManager) (h : ¬ st.currentIndex < 0) :
    (st.undo).2 = { st with currentIndex := st.currentIndex - 1 } := by
  unfold StateManager.undo
  simp [h]

theorem undoIter_spec (m : Nat) (st : StateManager)
    (hm : (m : Int) ≤ st.currentIndex + 1) :
    undoIter m st = { st with currentIndex := st.currentIndex - m } := by
  induction m with
  | zero => simp [undoIter]
  | succ n ih =>
    have hn := ih (by omega)
    rw [undoIter, hn, undo_snd _ (by simp; omega)]
    have harith : st.currentIndex - (n : Int) - 1 =
        st.currentIndex - ((n + 1 : Nat) : Int) := by push_cast; ring
    simp [harith]

set_option maxRecDepth 8000

/-- C6 counterexample.  `history.size()` does NOT equal `k` for every `k`:
after `k = 101` records on a fresh `StateManager` (and `m = 0` undos), the
`maxHistorySize = 100` cap has trimmed the log to 100 entries. -/
theorem c6_counterexample :
    (recordIter sampleInput (fun i => toString i) 101
        StateManager.init).size = 100 ∧ (100 : Nat) ≠ 101 := by
  constructor
  · rfl
  · decide

/-- C6 (amended to `k ≤ 100`, the `maxHistorySize` cap).  After `k ≤ 100`
records on a fresh `StateManager` followed by `m ≤ k` undos: the history
still holds all `k` entries, `getCurrent()` is the entry at index `k-1-m`
(`null` when `m = k`); moreover `undo()` is a no-op returning `null` at
cursor `-1`, and `redo()` is a no-op returning `null` at cursor
`length-1`. -/
theorem c6_undo_redo_algebra (f : Nat → RecordInput) (g : Nat → String)
    (k m : Nat) (hk : k ≤ 100) (hm : m ≤ k) :
    (undoIter m (recordIter f g k StateManager.init)).size = k ∧
    (m < k → (undoIter m (recordIter f g k StateManager.init)).getCurrent =
      some ((f (k - 1 - m)).toEntry (g (k - 1 - m)))) ∧
    (m = k → (undoIter m (recordIter f g k StateManager.init)).getCurrent =
      none) ∧
    (∀ s : StateManager, s.currentIndex = -1 → s.undo = (none, s)) ∧
    (∀ s : StateManager,
      s.currentIndex = (s.history.length : Int) - 1 → s.redo = (none, s)) := by
  obtain ⟨h1, h2, h3⟩ := recordIter_spec f g k hk
  have hu := undoIter_spec m (recordIter f g k StateManager.init)
    (by rw [h2]; omega)
  have hlen : (recordIter f g k StateManager.init).history.length = k := by
    rw [h1]; simp
  refine ⟨?_, ?_, ?_, ?_, ?_⟩
  · rw [StateManager.size, hu]
    simpa using hlen
  · intro hmk
    rw [hu]
    unfold StateManager.getCurrent
    have hc : ¬ ((recordIter f g k StateManager.init).currentIndex -
        (m : Int) < 0 ||
        (recordIter f g k StateManager.init).currentIndex - (m : Int) ≥
        (((recordIter f g k StateManager.init).history.length : Nat) :
          Int)) := by
      rw [h2, hlen]
      simp only [Bool.or_eq_true, not_or, decide_eq_true_eq]
      omega
    simp only [hc]
    simp only [h1, h2]
    have htn : ((k : Int) - 1 - (m : Int)).toNat = k - 1 - m := by omega
    rw [htn]
    rw [List.get?_map, List.get?_range (by omega : k - 1 - m < k)]
    rfl
  · intro hmk
    rw [hu]
    unfold StateManager.getCurrent
    rw [h2, hmk]
    simp
  · intro s hs
    unfold StateManager.undo
    rw [hs]
    simp
  · intro s hs
    unfold StateManager.redo
    rw [hs]
    simp

/-! ### The eviction scan computes a (frequency, recency)-lexicographic
minimum -/

theorem lruStep_foldl {V : Type} (l : List (String × CacheEntry V))
    (k0 : String) (ac0 t0 : Nat) :
    ∃ k ac t, l.foldl lruStep (some k0, some ac0, some t0) =
        (some k, some ac, some t) ∧
      ((k = k0 ∧ ac = ac0 ∧ t = t0) ∨
        ∃ e, (k, e) ∈ l ∧ e.accessCount = ac ∧ e.lastAccessed = t) ∧
      (ac < ac0 ∨ (ac = ac0 ∧ t ≤ t0)) ∧
      (∀ p ∈ l, ac < p.2.accessCount ∨
        (ac = p.2.accessCount ∧ t ≤ p.2.lastAccessed)) := by
  induction l generalizing k0 ac0 t0 with
  | nil =>
    exact ⟨k0, ac0, t0, rfl, Or.inl ⟨rfl, rfl, rfl⟩,
      Or.inr ⟨rfl, le_refl t0⟩, by simp⟩
  | cons q rest ih =>
    by_cases hb1 : q.2.accessCount < ac0
    · have hstep : lruStep (some k0, some ac0, some t0) q =
          (some q.1, some q.2.accessCount, some q.2.lastAccessed) := by
        simp [lruStep, ltInf, hb1]
      obtain ⟨k, ac, t, heq, hmem, hrel, hall⟩ :=
        ih q.1 q.2.accessCount q.2.lastAccessed
      refine ⟨k, ac, t, by rw [List.foldl_cons, hstep]; exact heq, ?_, ?_, ?_⟩
      · rcases hmem with ⟨hk, hac, ht⟩ | ⟨e, he, hac, ht⟩
        · exact Or.inr ⟨q.2, by simp [hk], hac.symm, ht.symm⟩
        · exact Or.inr ⟨e, List.mem_cons_of_mem q he, hac, ht⟩
      · rcases hrel with h | ⟨h, _⟩ <;> omega
      · intro p hp
        rcases List.mem_cons.mp hp with hpq | hpr
        · rw [hpq]
          exact hrel
        · exact hall p hpr
    · by_cases hb2 : q.2.accessCount = ac0
      · by_cases hb3 : q.2.lastAccessed < t0
        · have hstep : lruStep (some k0, some ac0, some t0) q =
              (some q.1, some ac0, some q.2.lastAccessed) := by
            simp [lruStep, ltInf, hb1, hb2, hb3]
          obtain ⟨k, ac, t, heq, hmem, hrel, hall⟩ :=
            ih q.1 ac0 q.2.lastAccessed
          refine ⟨k, ac, t, by rw [List.foldl_cons, hstep]; exact heq,
            ?_, ?_, ?_⟩
          · rcases hmem with ⟨hk, hac, ht⟩ | ⟨e, he, hac, ht⟩
            · exact Or.inr ⟨q.2, by simp [hk], by omega, ht.symm⟩
            · exact Or.inr ⟨e, List.mem_cons_of_mem q he, hac, ht⟩
          · rcases hrel with h | ⟨h, h'⟩ <;> [exact Or.inl h;
              exact Or.inr ⟨h, by omega⟩]
          · intro p hp
            rcases List.mem_cons.mp hp with hpq | hpr
            · rw [hpq]
              rcases hrel with h | ⟨h, h'⟩ <;> [exact Or.inl (by omega);
                exact Or.inr ⟨by omega, h'⟩]
            · exact hall p hpr
        · have hstep : lruStep (some k0, some ac0, some t0) q =
              (some k0, some ac0, some t0) := by
            simp [lruStep, ltInf, hb1, hb2, hb3]
          obtain ⟨k, ac, t, heq, hmem, hrel, hall⟩ := ih k0 ac0 t0
          refine ⟨k, ac, t, by rw [List.foldl_cons, hstep]; exact heq,
            ?_, hrel, ?_⟩
          · rcases hmem with h | ⟨e, he, hac, ht⟩
            · exact Or.inl h
            · exact Or.inr ⟨e, List.mem_cons_of_mem q he, hac, ht⟩
          · intro p hp
            rcases List.mem_cons.mp hp with hpq | hpr
            · rw [hpq]
              rcases hrel with h | ⟨h, h'⟩ <;> [exact Or.inl (by omega);
                exact Or.inr ⟨by omega, by omega⟩]
            · exact hall p hpr
      · have hstep : lruStep (some k0, some ac0, some t0) q =
            (some k0, some ac0, some t0) := by
          simp [lruStep, ltInf, hb1, hb2]
        obtain ⟨k, ac, t, heq, hmem, hrel, hall⟩ := ih k0 ac0 t0
        refine ⟨k, ac, t, by rw [List.foldl_cons, hstep]; exact heq,
          ?_, hrel, ?_⟩
        · rcases hmem with h | ⟨e, he, hac, ht⟩
          · exact Or.inl h
          · exact Or.inr ⟨e, List.mem_cons_of_mem q he, hac, ht⟩
        · intro p hp
          rcases List.mem_cons.mp hp with hpq | hpr
          · rw [hpq]
            rcases hrel with h | ⟨h, h'⟩ <;> exact Or.inl (by omega)
          · exact hall p hpr

theorem selectLRU_min {V : Type} (c : SmartCache V) (k : String)
    (hsel : c.selectLRU = some k) :
    ∃ e, (k, e) ∈ c.entries ∧ ∀ p ∈ c.entries,
      e.accessCount < p.2.accessCount ∨
      (e.accessCount = p.2.accessCount ∧
        e.lastAccessed ≤ p.2.lastAccessed) := by
  rcases hent : c.entries with _ | ⟨q, rest⟩
  · rw [SmartCache.selectLRU, hent] at hsel
    simp at hsel
  · rw [SmartCache.selectLRU, hent] at hsel
    have hstep : lruStep ((none : Option String), (none : Option Nat),
        (none : Option Nat)) q =
        (some q.1, some q.2.accessCount, some q.2.lastAccessed) := by
      simp [lruStep, ltInf]
    rw [List.foldl_cons, hstep] at hsel
    obtain ⟨k', ac, t, heq, hmem, hrel, hall⟩ :=
      lruStep_foldl rest q.1 q.2.accessCount q.2.lastAccessed
    rw [heq] at hsel
    simp only [Prod.mk.injEq, Option.some.injEq] at hsel
    rcases hmem with ⟨hk, hac, ht⟩ | ⟨e, he, hac, ht⟩
    · have hkq : k = q.1 := hsel.symm.trans hk
      refine ⟨q.2, ?_, ?_⟩
      · rw [hkq]
        simp
      · intro p hp
        rcases List.mem_cons.mp hp with hpq | hpr
        · rw [hpq]
          exact Or.inr ⟨rfl, le_refl _⟩
        · have h2 := hall p hpr
          rcases h2 with h | ⟨h, h'⟩
          · exact Or.inl (by omega)
          · exact Or.inr ⟨by omega, by omega⟩
    · refine ⟨e, List.mem_cons_of_mem q (by rw [← hsel]; exact he), ?_⟩
      intro p hp
      rcases List.mem_cons.mp hp with hpq | hpr
      · rw [hpq]
        rcases hrel with h | ⟨h, h'⟩
        · exact Or.inl (by omega)
        · exact Or.inr ⟨by omega, by omega⟩
      · have h2 := hall p hpr
        rcases h2 with h | ⟨h, h'⟩
        · exact Or.inl (by omega)
        · exact Or.inr ⟨by omega, by omega⟩

/-- The cache state of the spec's eviction scenario: `maxSize = 3`; insert
`k1, k2, k3` at times 1, 2, 3; `get(k1)` twice; insert `k4` at time 6. -/
def lruScenario : SmartCache String :=
  ((((((SmartCache.init String { maxSize := 3, ttlMs := 100000 }).set
        "k1" "v1" 1).set "k2" "v2" 2).set "k3" "v3" 3).get
      "k1" 4).2.get "k1" 5).2.set "k4" "v4" 6

/-- C3.  Eviction selects an entry with the smallest `accessCount` over all
live entries, breaking ties by the oldest `lastAccessed` (so a strictly
smaller `accessCount` loses regardless of recency); the guard permitting,
exactly that key is deleted.  Concretely, with `maxSize = 3`, after inserting
`k1, k2, k3` and reading `k1` twice, inserting `k4` evicts `k2`. -/
theorem c3_eviction_policy :
    (∀ (V : Type) (c : SmartCache V) (k : String), c.selectLRU = some k →
      ∃ e, (k, e) ∈ c.entries ∧ ∀ p ∈ c.entries,
        e.accessCount < p.2.accessCount ∨
        (e.accessCount = p.2.accessCount ∧
          e.lastAccessed ≤ p.2.lastAccessed)) ∧
    (∀ (V : Type) (c : SmartCache V) (k : String), c.selectLRU = some k →
      k ≠ "" → (c.evictLRU).entries = alDelete c.entries k) ∧
    ((lruScenario.has "k2" 7).1 = false ∧ (lruScenario.has "k1" 7).1 = true ∧
      (lruScenario.has "k3" 7).1 = true ∧
      (lruScenario.has "k4" 7).1 = true) := by
  refine ⟨fun V c k hsel => selectLRU_min c k hsel, ?_, by decide⟩
  intro V c k hsel hk
  unfold SmartCache.evictLRU
  rw [hsel]
  simp [hk]

/-! ### Further cache read/write lemmas -/

theorem alGet_set_self {V : Type} (c : SmartCache V) (k : String) (v : V)
    (t0 : Nat) :
    alGet (c.set k v t0).entries k =
      some (CacheEntry.mk v (t0 + c.ttlMs) 0 t0) := by
  unfold SmartCache.set
  split
  · simp [alGet_alSet_self, (evictLRU_fields c).2.1]
  · simp [alGet_alSet_self]

theorem has_of_alGet_none {V : Type} (c : SmartCache V) (k : String) (t : Nat)
    (h : alGet c.entries k = none) : c.has k t = (false, c) := by
  unfold SmartCache.has SmartCache.get
  rw [h]
  rfl

theorem has_get_live {V : Type} (c : SmartCache V) (k : String) (t : Nat)
    (e : CacheEntry V) (he : alGet c.entries k = some e)
    (ht : ¬ t > e.expiresAt) :
    (c.has k t).1 = true ∧ ((c.has k t).2.get k t).1 = some e.value := by
  have hg : c.get k t =
      (some e.value,
       { c with entries := alSet c.entries k (CacheEntry.mk e.value e.expiresAt (e.accessCount + 1) t) }) := by
    unfold SmartCache.get
    simp [he, ht]
  refine ⟨by simp [SmartCache.has, hg], ?_⟩
  have hg2 : alGet ((c.has k t).2).entries k =
      some (CacheEntry.mk e.value e.expiresAt (e.accessCount + 1) t) := by
    simp [SmartCache.has, hg, alGet_alSet_self]
  unfold SmartCache.get
  rw [hg2]
  simp [ht]

theorem set_ttlMs {V : Type} (c : SmartCache V) (k : String) (v : V)
    (t : Nat) : (c.set k v t).ttlMs = c.ttlMs :=
  (set_fields c k v t).2.1

/-! ### Path characterizations of `handle` (plugin-free agents) -/

/-- The agent state after the success path of `handle`: `has`-side effects,
the conditional history record, then the conditional cache store. -/
def afterExec (a : PolicyAgent) (i : Intent) (key : String)
    (res : ProcessorResult) (now : Nat) (gid : String) : PolicyAgent :=
  let a1 : PolicyAgent := { a with cache := (a.cache.has key now).2 }
  let a2 : PolicyAgent :=
    if a1.options.enableHistory then
      { a1 with stateManager := (a1.stateManager.record ⟨i, ⟨res.artifact, none, none⟩, now, 0⟩ gid).2 }
    else a1
  match res.artifact with
  | some art => { a2 with cache := a2.cache.set key art now }
  | none => a2

theorem handle_hit (a : PolicyAgent) (ctx : AgentContext) (now : Nat)
    (rand : ℚ) (gid : String) (i : Intent) (key : String)
    (hp : a.plugins = []) (hi : recognize ctx.message rand = i)
    (hkey : generateCacheKey i ctx = key)
    (hhit : (a.cache.has key now).1 = true) :
    a.handle ctx now rand gid =
      ⟨{ success := true, artifact := ((a.cache.has key now).2.get key now).1, fromCache := some true },
       { a with cache := ((a.cache.has key now).2.get key now).2 }, false⟩ := by
  unfold PolicyAgent.handle
  rw [hp]
  simp only [runBefore, hi, hkey, hhit, if_true]

theorem handle_miss_noproc (a : PolicyAgent) (ctx : AgentContext) (now : Nat)
    (rand : ℚ) (gid : String) (i : Intent) (key : String)
    (hp : a.plugins = []) (hi : recognize ctx.message rand = i)
    (hkey : generateCacheKey i ctx = key)
    (hmiss : (a.cache.has key now).1 = false)
    (hnp : alGet a.processors i.type = none) :
    a.handle ctx now rand gid =
      ⟨{ success := false, error := some ("未找到处理器: " ++ i.type.name) },
       { a with cache := (a.cache.has key now).2 }, false⟩ := by
  unfold PolicyAgent.handle
  rw [hp]
  simp only [runBefore, hi, hkey, hmiss, Bool.false_eq_true, if_false, hnp]

theorem handle_miss_err (a : PolicyAgent) (ctx : AgentContext) (now : Nat)
    (rand : ℚ) (gid : String) (i : Intent) (key : String) (proc : Processor)
    (e : String)
    (hp : a.plugins = []) (hi : recognize ctx.message rand = i)
    (hkey : generateCacheKey i ctx = key)
    (hmiss : (a.cache.has key now).1 = false)
    (hproc : alGet a.processors i.type = some proc)
    (hex : proc.execute i.params ctx now = .error e) :
    a.handle ctx now rand gid =
      ⟨{ success := false, error := some e },
       { a with cache := (a.cache.has key now).2 }, true⟩ := by
  unfold PolicyAgent.handle
  rw [hp]
  simp only [runBefore, hi, hkey, hmiss, Bool.false_eq_true, if_false, hproc,
    hex]

theorem handle_miss_ok (a : PolicyAgent) (ctx : AgentContext) (now : Nat)
    (rand : ℚ) (gid : String) (i : Intent) (key : String) (proc : Processor)
    (res : ProcessorResult)
    (hp : a.plugins = []) (hi : recognize ctx.message rand = i)
    (hkey : generateCacheKey i ctx = key)
    (hmiss : (a.cache.has key now).1 = false)
    (hproc : alGet a.processors i.type = some proc)
    (hex : proc.execute i.params ctx now = .ok res) :
    a.handle ctx now rand gid =
      ⟨{ success := true, artifact := res.artifact, fromCache := some false },
       afterExec a i key res now gid, true⟩ := by
  unfold PolicyAgent.handle afterExec
  rw [hp]
  simp only [runBefore, hi, hkey, hmiss, Bool.false_eq_true, if_false, hproc,
    hex]
  cases henh : a.options.enableHistory <;>
    simp only [henh, Bool.false_eq_true, if_false, if_true, runAfter]

theorem afterExec_plugins (a : PolicyAgent) (i : Intent) (key : String)
    (res : ProcessorResult) (now : Nat) (gid : String) :
    (afterExec a i key res now gid).plugins = a.plugins := by
  unfold afterExec
  split <;> simp [apply_ite (fun x : PolicyAgent => x.plugins)]

theorem afterExec_cache (a : PolicyAgent) (i : Intent) (key : String)
    (res : ProcessorResult) (now : Nat) (gid : String) (art : Artifact)
    (hart : res.artifact = some art) :
    (afterExec a i key res now gid).cache =
      ((a.cache.has key now).2).set key art now := by
  unfold afterExec
  rw [hart]
  simp [apply_ite (fun x : PolicyAgent => x.cache)]

theorem afterExec_stateManager (a : PolicyAgent) (i : Intent) (key : String)
    (res : ProcessorResult) (now : Nat) (gid : String)
    (hh : a.options.enableHistory = true) :
    (afterExec a i key res now gid).stateManager =
      (a.stateManager.record ⟨i, ⟨res.artifact, none, none⟩, now, 0⟩ gid).2 := by
  unfold afterExec
  simp only [hh, if_true]
  split <;> rfl


theorem strHas_append (x y : String) : strHas (x ++ y) y = true := by
  unfold strHas
  rw [String.data_append]
  exact listHas_append_self x.data y.data

/-! ### Concrete dispatch contexts for closed evaluations -/

def sampleUser : UserInfo := { id := "u", name := "User", roles := [] }

/-- A context whose message recognizes to the `help` intent, for which the
default agent registers no processor. -/
def helpCtx : AgentContext :=
  { user := sampleUser, message := "/help", channel := .slack,
    timestamp := 0, artifacts := [] }

/-- A context whose message recognizes to the `export` intent, whose default
processor always produces an artifact. -/
def exportCtx : AgentContext :=
  { user := sampleUser, message := "/export pdf", channel := .slack,
    timestamp := 0, artifacts := [] }

/-- C8.  (1) For every agent and context, whenever `handle` reports
`success = false` it also carries an `error` string — `handle` is a total
function into `ProcessingResult`, so no failure escapes the entry point as an
exception.  (2) A cache miss whose recognized intent type has no registered
processor yields exactly the structured failure
`\x7b success: false, error: "未找到处理器: <type>" \x7d`, whose error text
contains the intent-type name. -/
theorem c8_structured_failures :
    (∀ (a : PolicyAgent) (ctx : AgentContext) (now : Nat) (rand : ℚ)
      (gid : String),
      (a.handle ctx now rand gid).result.success = false →
      (a.handle ctx now rand gid).result.error ≠ none) ∧
    (∀ (a : PolicyAgent) (ctx : AgentContext) (now : Nat) (rand : ℚ)
      (gid : String) (i : Intent) (key : String),
      a.plugins = [] → recognize ctx.message rand = i →
      generateCacheKey i ctx = key → (a.cache.has key now).1 = false →
      alGet a.processors i.type = none →
      (a.handle ctx now rand gid).result =
        { success := false, error := some ("未找到处理器: " ++ i.type.name) } ∧
      strHas ("未找到处理器: " ++ i.type.name) i.type.name = true) := by
  constructor
  · intro a ctx now rand gid
    unfold PolicyAgent.handle
    split
    · simp
    · dsimp only
      (repeat' split) <;> simp
  · intro a ctx now rand gid i key hp hi hkey hmiss hnp
    rw [handle_miss_noproc a ctx now rand gid i key hp hi hkey hmiss hnp]
    exact ⟨rfl, strHas_append _ _⟩

/-- C8 witness: dispatching `"/help"` on the default agent (which registers
no `help` processor) produces a structured failure carrying an error. -/
theorem c8_witness :
    (defaultAgent.handle helpCtx 0 0 "g").result.error ≠ none :=
  c8_structured_failures.1 defaultAgent helpCtx 0 0 "g" (by decide)

/-- C4 counterexample.  History is enabled on the default agent, yet the
missing-handler outcome of `handle("/help")` records NO history entry: the
`record` call sits after the early returns, so only the successful-processor
path records. -/
theorem c4_counterexample :
    defaultAgent.options.enableHistory = true ∧
    (defaultAgent.handle helpCtx 0 0 "g").agent.stateManager.size = 0 :=
  ⟨rfl, rfl⟩

/-- C4 (amended).  With history enabled, `handle` records exactly one entry
(capturing the intent, the processor result and the elapsed duration) on the
path where a registered processor executes without throwing, and records
nothing on the cache-hit, missing-handler and thrown-error paths. -/
theorem c4_history_recording (a : PolicyAgent) (ctx : AgentContext)
    (now : Nat) (rand : ℚ) (gid : String) (i : Intent) (key : String)
    (hp : a.plugins = []) (hh : a.options.enableHistory = true)
    (hi : recognize ctx.message rand = i)
    (hkey : generateCacheKey i ctx = key) :
    ((a.cache.has key now).1 = true →
      (a.handle ctx now rand gid).agent.stateManager = a.stateManager) ∧
    ((a.cache.has key now).1 = false → alGet a.processors i.type = none →
      (a.handle ctx now rand gid).agent.stateManager = a.stateManager) ∧
    (∀ (proc : Processor) (e : String), (a.cache.has key now).1 = false →
      alGet a.processors i.type = some proc →
      proc.execute i.params ctx now = .error e →
      (a.handle ctx now rand gid).agent.stateManager = a.stateManager) ∧
    (∀ (proc : Processor) (res : ProcessorResult),
      (a.cache.has key now).1 = false →
      alGet a.processors i.type = some proc →
      proc.execute i.params ctx now = .ok res →
      (a.handle ctx now rand gid).agent.stateManager =
        (a.stateManager.record ⟨i, ⟨res.artifact, none, none⟩, now, 0⟩ gid).2) := by
  refine ⟨?_, ?_, ?_, ?_⟩
  · intro hhit
    rw [handle_hit a ctx now rand gid i key hp hi hkey hhit]
  · intro hmiss hnp
    rw [handle_miss_noproc a ctx now rand gid i key hp hi hkey hmiss hnp]
  · intro proc e hmiss hproc hex
    rw [handle_miss_err a ctx now rand gid i key proc e hp hi hkey hmiss
      hproc hex]
  · intro proc res hmiss hproc hex
    rw [handle_miss_ok a ctx now rand gid i key proc res hp hi hkey hmiss
      hproc hex]
    exact afterExec_stateManager a i key res now gid hh

/-- C4 witness: on the default agent, `handle("/export pdf")` performs
exactly one `record`, with the recognized intent and the produced
artifact. -/
theorem c4_witness :
    (defaultAgent.handle exportCtx 0 0 "g").agent.stateManager =
      (defaultAgent.stateManager.record
        ⟨recognize exportCtx.message 0, ⟨some (Artifact.mk "export-0" "file-export" [("format", PValue.str "pdf")]), none, none⟩, 0, 0⟩ "g").2 := by
  have h := c4_history_recording defaultAgent exportCtx 0 0 "g"
    (recognize exportCtx.message 0)
    (generateCacheKey (recognize exportCtx.message 0) exportCtx)
    rfl rfl rfl rfl
  exact h.2.2.2 exportProcessor
    ⟨some (Artifact.mk "export-0" "file-export" [("format", PValue.str "pdf")])⟩
    (by decide) rfl rfl

/-- C1 counterexample.  The claim quantifies over EVERY pair of `handle`
calls whose messages recognize to the same `(channel, type, params)` within
TTL; two `"/help"` dispatches on the default agent satisfy that antecedent,
yet the first call's `fromCache` is absent (`none`), not `false`, and the
second call's is absent, not `true` — the missing-handler failure is never
cached. -/
theorem c1_counterexample :
    (defaultAgent.handle helpCtx 0 0 "g1").result.fromCache = none ∧
    ((defaultAgent.handle helpCtx 0 0 "g1").agent.handle helpCtx 1 0
        "g2").result.fromCache = none :=
  ⟨rfl, rfl⟩

/-- C1 (amended).  Restricted to dispatches whose recognized intent type has
a registered processor that returns an artifact, with the key not yet
cached: the first call misses (`fromCache = false`), invokes the processor
and returns the artifact; a second call recognizing to the same
`(channel, type, params)` within the TTL window hits
(`fromCache = true`), returns the identical artifact, and does not invoke
the processor. -/
theorem c1_cache_idempotent (a : PolicyAgent) (ctx1 ctx2 : AgentContext)
    (t1 t2 : Nat) (r1 r2 : ℚ) (g1 g2 : String) (proc : Processor)
    (res : ProcessorResult) (art : Artifact)
    (hp : a.plugins = [])
    (hk : alGet a.cache.entries
      (generateCacheKey (recognize ctx1.message r1) ctx1) = none)
    (hpr : alGet a.processors (recognize ctx1.message r1).type = some proc)
    (hex : proc.execute (recognize ctx1.message r1).params ctx1 t1 = .ok res)
    (hart : res.artifact = some art)
    (hch : ctx2.channel = ctx1.channel)
    (hty : (recognize ctx2.message r2).type =
      (recognize ctx1.message r1).type)
    (hpar : (recognize ctx2.message r2).params =
      (recognize ctx1.message r1).params)
    (htime : ¬ t2 > t1 + a.cache.ttlMs) :
    (a.handle ctx1 t1 r1 g1).result.fromCache = some false ∧
    (a.handle ctx1 t1 r1 g1).result.artifact = some art ∧
    (a.handle ctx1 t1 r1 g1).invoked = true ∧
    ((a.handle ctx1 t1 r1 g1).agent.handle ctx2 t2 r2 g2).result.fromCache =
      some true ∧
    ((a.handle ctx1 t1 r1 g1).agent.handle ctx2 t2 r2 g2).result.artifact =
      some art ∧
    ((a.handle ctx1 t1 r1 g1).agent.handle ctx2 t2 r2 g2).invoked = false := by
  have hmiss1 : (a.cache.has
      (generateCacheKey (recognize ctx1.message r1) ctx1) t1).1 = false := by
    rw [has_of_alGet_none a.cache _ t1 hk]
  have h1 := handle_miss_ok a ctx1 t1 r1 g1 (recognize ctx1.message r1)
    (generateCacheKey (recognize ctx1.message r1) ctx1) proc res hp rfl rfl
    hmiss1 hpr hex
  have hkey2 : generateCacheKey (recognize ctx2.message r2) ctx2 =
      generateCacheKey (recognize ctx1.message r1) ctx1 := by
    unfold generateCacheKey
    rw [hch, hty, hpar]
  have hcache2 : (afterExec a (recognize ctx1.message r1)
      (generateCacheKey (recognize ctx1.message r1) ctx1) res t1 g1).cache =
      a.cache.set (generateCacheKey (recognize ctx1.message r1) ctx1) art
        t1 := by
    rw [afterExec_cache a _ _ res t1 g1 art hart,
      has_of_alGet_none a.cache _ t1 hk]
  have he2 : alGet (afterExec a (recognize ctx1.message r1)
      (generateCacheKey (recognize ctx1.message r1) ctx1) res t1
      g1).cache.entries
      (generateCacheKey (recognize ctx1.message r1) ctx1) =
      some (CacheEntry.mk art (t1 + a.cache.ttlMs) 0 t1) := by
    rw [hcache2, alGet_set_self]
  have hlive := has_get_live (afterExec a (recognize ctx1.message r1)
    (generateCacheKey (recognize ctx1.message r1) ctx1) res t1 g1).cache
    (generateCacheKey (recognize ctx1.message r1) ctx1) t2
    (CacheEntry.mk art (t1 + a.cache.ttlMs) 0 t1) he2 htime
  have h2 := handle_hit (afterExec a (recognize ctx1.message r1)
    (generateCacheKey (recognize ctx1.message r1) ctx1) res t1 g1) ctx2 t2
    r2 g2 (recognize ctx2.message r2)
    (generateCacheKey (recognize ctx1.message r1) ctx1)
    ((afterExec_plugins a _ _ res t1 g1).trans hp) rfl hkey2 hlive.1
  rw [h1]
  simp only [h2]
  simp [hart, hlive.2]

/-- C1 witness: two `"/export pdf"` dispatches on the default agent one
millisecond apart — miss then hit, identical artifact, processor invoked
only once. -/
theorem c1_witness :
    (defaultAgent.handle exportCtx 0 0 "g1").result.fromCache = some false ∧
    (defaultAgent.handle exportCtx 0 0 "g1").result.artifact =
      some (Artifact.mk "export-0" "file-export" [("format", PValue.str "pdf")]) ∧
    (defaultAgent.handle exportCtx 0 0 "g1").invoked = true ∧
    ((defaultAgent.handle exportCtx 0 0 "g1").agent.handle exportCtx 1 0
        "g2").result.fromCache = some true ∧
    ((defaultAgent.handle exportCtx 0 0 "g1").agent.handle exportCtx 1 0
        "g2").result.artifact =
      some (Artifact.mk "export-0" "file-export" [("format", PValue.str "pdf")]) ∧
    ((defaultAgent.handle exportCtx 0 0 "g1").agent.handle exportCtx 1 0
        "g2").invoked = false :=
  c1_cache_idempotent defaultAgent exportCtx exportCtx 0 1 0 0 "g1" "g2"
    exportProcessor
    ⟨some (Artifact.mk "export-0" "file-export" [("format", PValue.str "pdf")])⟩
    (Artifact.mk "export-0" "file-export" [("format", PValue.str "pdf")])
    rfl rfl rfl rfl rfl rfl rfl rfl (by decide)

/-- C9.  `recognize` is ordered first-match classification over the pattern
table in declaration order `analyze, review, pricing, export, help` (matching
against the trimmed lowercased message); when no pattern of any type
matches, the intent is `unknown` with `params = \x7b raw: message \x7d` and
the fixed confidence `0.5`. -/
theorem c9_recognize_first_match (msg : String) (rand : ℚ) :
    recognize msg rand =
      match ([(IntentType.analyze, analyzePatterns),
          (IntentType.review, reviewPatterns),
          (IntentType.pricing, pricingPatterns),
          (IntentType.exportT, exportPatterns),
          (IntentType.help, helpPatterns)].find?
          (fun tp => tp.2.any (fun p => p (jsToLower (jsTrim msg))))) with
      | some tp => { type := tp.1, params := extractParams msg tp.1, confidence := 85/100 + rand * (1/10) }
      | none => { type := .unknown, params := [("raw", .str msg)], confidence := 1/2 } := by
  cases h1 : analyzePatterns.any (fun p => p (jsToLower (jsTrim msg))) <;>
  cases h2 : reviewPatterns.any (fun p => p (jsToLower (jsTrim msg))) <;>
  cases h3 : pricingPatterns.any (fun p => p (jsToLower (jsTrim msg))) <;>
  cases h4 : exportPatterns.any (fun p => p (jsToLower (jsTrim msg))) <;>
  cases h5 : helpPatterns.any (fun p => p (jsToLower (jsTrim msg))) <;>
  simp [recognize, recognizeLoop, patternTable, List.find?, h1, h2, h3, h4,
    h5]

/-- A two-entry cache whose `"b"` entry has the smaller `accessCount`. -/
def lruDemo : SmartCache String :=
  { entries := [("a", CacheEntry.mk "x" 1000 2 9), ("b", CacheEntry.mk "y" 1000 0 5)],
    maxSize := 2, ttlMs := 100, hitCount := 0, missCount := 0 }

/-- C3 witness: on a concrete two-entry cache the eviction scan selects the
key with the smaller `accessCount`, and that entry is minimal. -/
theorem c3_witness :
    ∃ e, ("b", e) ∈ lruDemo.entries ∧ ∀ p ∈ lruDemo.entries,
      e.accessCount < p.2.accessCount ∨
      (e.accessCount = p.2.accessCount ∧
        e.lastAccessed ≤ p.2.lastAccessed) :=
  c3_eviction_policy.1 String lruDemo "b" (by decide)

/-- A fresh cache with `ttlMs = 100` holding `"k"` inserted at time 0. -/
def cacheDemo : SmartCache String :=
  (SmartCache.init String { maxSize := 10, ttlMs := 100 }).set "k" "v" 0

/-- C5 witness: reading `"k"` at time 101 (strictly past `0 + 100`) misses
and deletes the entry; reading at time 100 (the boundary) hits, bumps
`accessCount` to 1 and refreshes `lastAccessed`. -/
theorem c5_witness :
    ((cacheDemo.get "k" 101).1 = none ∧ (cacheDemo.has "k" 101).1 = false ∧
      alGet (cacheDemo.get "k" 101).2.entries "k" = none) ∧
    ((cacheDemo.get "k" 100).1 = some "v" ∧
      (cacheDemo.has "k" 100).1 = true ∧
      alGet (cacheDemo.get "k" 100).2.entries "k" =
        some (CacheEntry.mk "v" 100 1 100)) := by
  have h1 := (c5_ttl_lazy_expiry cacheDemo "k" "w" 0 101).2.1
    (CacheEntry.mk "v" 100 0 0) (by decide) (by decide)
  have h2 := (c5_ttl_lazy_expiry cacheDemo "k" "w" 0 100).2.2
    (CacheEntry.mk "v" 100 0 0) (by decide) (by decide)
  exact ⟨⟨h1.1, h1.2.1,
    h1.2.2 (by show (cacheDemo.entries.map Prod.fst).Nodup; decide)⟩,
    ⟨h2.1, h2.2.1, h2.2.2⟩⟩

/-- C6 witness: `k = 3` records then `m = 1` undo — the log still holds 3
entries and `getCurrent()` is the entry recorded at index `1 = k-1-m`. -/
theorem c6_witness :
    (undoIter 1 (recordIter sampleInput (fun i => toString i) 3
        StateManager.init)).size = 3 ∧
    (undoIter 1 (recordIter sampleInput (fun i => toString i) 3
        StateManager.init)).getCurrent =
      some ((sampleInput 1).toEntry "1") := by
  have h := c6_undo_redo_algebra sampleInput (fun i => toString i) 3 1
    (by decide) (by decide)
  exact ⟨h.1, h.2.1 (by decide)⟩

end Dispatch
